import Mathlib

/-!
Verification of the paginated result streaming and rendering engine of the
onyx-client command line tool (src/onyx/cli.py), against its design
specification.  Python strings are modelled as lists of characters, Python
dicts as insertion-ordered association lists, and the page stream produced by
the HTTP layer as an explicit list of page results.
-/

namespace OnyxClient

/-- Python strings are modelled as lists of characters. -/
abbrev Str := List Char

/-- JSON values as parsed by the Python json module (floats are not used by
the claims under verification and are omitted; numbers are integers). -/
inductive Json where
  | null
  | bool (b : Bool)
  | num (n : Int)
  | str (s : Str)
  | arr (elems : List Json)
  | obj (fields : List (Str × Json))

instance : Inhabited Json := ⟨Json.null⟩

/-- Indentation: n spaces. -/
def pad (n : Nat) : Str := List.replicate n ' '

/-- Lower-case hexadecimal digit. -/
def hexDig (n : Nat) : Char :=
  if n < 10 then Char.ofNat (48 + n) else Char.ofNat (87 + n)

/-- Four lower-case hex digits. -/
def hex4 (n : Nat) : Str :=
  [hexDig (n / 4096 % 16), hexDig (n / 256 % 16), hexDig (n / 16 % 16), hexDig (n % 16)]

/-- Unicode escape used by json.dumps with ensure_ascii (the default),
including surrogate pairs for code points beyond the basic plane. -/
def uEscape (n : Nat) : Str :=
  if n < 65536 then '\\' :: 'u' :: hex4 n
  else
    '\\' :: 'u' :: hex4 (55296 + (n - 65536) / 1024) ++
      '\\' :: 'u' :: hex4 (56320 + (n - 65536) % 1024)

/-- Escaping of one character inside a JSON string literal, as performed by
json.dumps with its default ensure_ascii=True. -/
def escChar (c : Char) : Str :=
  if c = '"' then ['\\', '"']
  else if c = '\\' then ['\\', '\\']
  else if c = '\n' then ['\\', 'n']
  else if c = '\t' then ['\\', 't']
  else if c = '\r' then ['\\', 'r']
  else if c = '\x08' then ['\\', 'b']
  else if c = '\x0c' then ['\\', 'f']
  else if c.toNat < 32 || c.toNat > 127 then uEscape c.toNat
  else [c]

/-- Escaping of a whole JSON string body. -/
def escape (s : Str) : Str := s.flatMap escChar

mutual

/-- json.dumps(value, indent=4): the rendering of a JSON value at nesting
depth d.  With an indent, Python separates items by ",\n" + indentation and
key from value by ": ". -/
def dumps : Json → Nat → Str
  | Json.null, _ => ['n', 'u', 'l', 'l']
  | Json.bool true, _ => ['t', 'r', 'u', 'e']
  | Json.bool false, _ => ['f', 'a', 'l', 's', 'e']
  | Json.num n, _ => (toString n).toList
  | Json.str s, _ => '"' :: (escape s ++ ['"'])
  | Json.arr [], _ => ['[', ']']
  | Json.arr (e :: es), d =>
      '[' :: '\n' :: (dumpsArr (e :: es) (d + 1) ++ '\n' :: (pad (4 * d) ++ [']']))
  | Json.obj [], _ => ['\x7b', '\x7d']
  | Json.obj (kv :: kvs), d =>
      '\x7b' :: '\n' :: (dumpsObj (kv :: kvs) (d + 1) ++ '\n' :: (pad (4 * d) ++ ['\x7d']))

/-- The ",\n"-separated, indented items of a nonempty-array body. -/
def dumpsArr : List Json → Nat → Str
  | [], _ => []
  | [e], d => pad (4 * d) ++ dumps e d
  | e :: e2 :: es, d => pad (4 * d) ++ dumps e d ++ ',' :: '\n' :: dumpsArr (e2 :: es) d

/-- The ",\n"-separated, indented items of a nonempty-object body. -/
def dumpsObj : List (Str × Json) → Nat → Str
  | [], _ => []
  | [(k, v)], d => pad (4 * d) ++ '"' :: (escape k ++ '"' :: ':' :: ' ' :: dumps v d)
  | (k, v) :: kv2 :: kvs, d =>
      pad (4 * d) ++ '"' :: (escape k ++ '"' :: ':' :: ' ' :: dumps v d) ++
        ',' :: '\n' :: dumpsObj (kv2 :: kvs) d

end

mutual

/-- Python repr of a parsed JSON value (used by str() on containers). -/
def pyRepr : Json → Str
  | Json.null => ['N', 'o', 'n', 'e']
  | Json.bool true => ['T', 'r', 'u', 'e']
  | Json.bool false => ['F', 'a', 'l', 's', 'e']
  | Json.num n => (toString n).toList
  | Json.str s => '\x27' :: (s ++ ['\x27'])
  | Json.arr l => '[' :: (pyReprArr l ++ [']'])
  | Json.obj kvs => '\x7b' :: (pyReprObj kvs ++ ['\x7d'])

/-- Comma-separated repr of list items. -/
def pyReprArr : List Json → Str
  | [] => []
  | [e] => pyRepr e
  | e :: e2 :: es => pyRepr e ++ ',' :: ' ' :: pyReprArr (e2 :: es)

/-- Comma-separated repr of dict items. -/
def pyReprObj : List (Str × Json) → Str
  | [] => []
  | [(k, v)] => '\x27' :: (k ++ '\x27' :: ':' :: ' ' :: pyRepr v)
  | (k, v) :: kv2 :: kvs =>
      '\x27' :: (k ++ '\x27' :: ':' :: ' ' :: pyRepr v) ++ ',' :: ' ' :: pyReprObj (kv2 :: kvs)

end

/-- Python str() of a parsed JSON value. -/
def pyStr : Json → Str
  | Json.str s => s
  | j => pyRepr j

/-- Python truthiness of a parsed JSON value. -/
def truthy : Json → Bool
  | Json.null => false
  | Json.bool b => b
  | Json.num n => n != 0
  | Json.str s => !s.isEmpty
  | Json.arr l => !l.isEmpty
  | Json.obj l => !l.isEmpty

/-- Subscripting j[k]: defined only when j is a dict holding the key; any
other use raises an uncaught TypeError/KeyError, modelled as none. -/
def pyGetItem (j : Json) (k : Str) : Option Json :=
  match j with
  | Json.obj kvs => List.lookup k kvs
  | _ => none

/-- str.startswith. -/
def startswith (s pre : Str) : Bool := pre.isPrefixOf s

/-- str.endswith. -/
def endswith (s suf : Str) : Bool := suf.isSuffixOf s

/-- str.removeprefix: drops pre if present, else returns s unchanged. -/
def removeprefixPy (s pre : Str) : Str :=
  if pre.isPrefixOf s then s.drop pre.length else s

/-- str.removesuffix: drops suf if present, else returns s unchanged. -/
def removesuffixPy (s suf : Str) : Str :=
  if suf.isSuffixOf s then s.take (s.length - suf.length) else s

/-- An HTTP response as the cli sees it: .json() either yields a parsed JSON
value or raises json.decoder.JSONDecodeError (modelled as none), and .text is
the raw body text.  The requests library is an external collaborator. -/
structure Response where
  jsonBody : Option Json
  text : Str

/-- One fetched page: the response plus its .ok flag. -/
structure PageResult where
  ok : Bool
  resp : Response

/-- Key "data" of the pagination envelope. -/
def kData : Str := ['d', 'a', 't', 'a']

/-- Key "previous" of the pagination envelope. -/
def kPrevious : Str := ['p', 'r', 'e', 'v', 'i', 'o', 'u', 's']

/-- Key "next" of the pagination envelope. -/
def kNext : Str := ['n', 'e', 'x', 't']

/-- Key "messages" of the error envelope. -/
def kMessages : Str := ['m', 'e', 's', 's', 'a', 'g', 'e', 's']

/-- Key "detail" of the error envelope. -/
def kDetail : Str := ['d', 'e', 't', 'a', 'i', 'l']

/-- Message of the Exception raised when a continuation fragment lacks the
expected prefix. -/
def invalidStartMsg : Str := "Response JSON has invalid start character(s).".toList

/-- Message of the Exception raised when a non-final fragment lacks the
expected suffix. -/
def invalidEndMsg : Str := "Response JSON has invalid end character(s).".toList

/-- Message of the BadParameter error for a malformed -f / --field criterion. -/
def malformedMsg : Str := "\x27name=value\x27 syntax was not used".toList

/-- The param_hint naming the responsible flag. -/
def fieldHint : Str := "\x27-f\x27 / \x27--field\x27".toList

/-- How the cli terminates when an error escapes: a ClickException is a
user-facing error report, while any other exception is an uncaught crash. -/
inductive CliOutcome where
  | clickException (msg : Str)
  | pythonError
deriving DecidableEq

/-- cli_error (src/onyx/cli.py): formats an error response and raises a
ClickException.  Only json.decoder.JSONDecodeError is caught; a JSON body
without a "messages" mapping raises an uncaught KeyError/AttributeError. -/
def cli_error (resp : Response) : CliOutcome :=
  match resp.jsonBody with
  | none => CliOutcome.clickException resp.text
  | some j =>
    match pyGetItem j kMessages with
    | none => CliOutcome.pythonError
    | some (Json.obj ms) =>
      match List.lookup kDetail ms with
      | some dv =>
          if truthy dv then CliOutcome.clickException (pyStr dv)
          else CliOutcome.clickException (dumps (Json.obj ms) 0)
      | none => CliOutcome.clickException (dumps (Json.obj ms) 0)
    | some _ => CliOutcome.pythonError

/-- Error taxonomy of a filter invocation: a BadParameter configuration
error, a ClickException error report, the hard internal Exception of the
stitcher, or an uncaught Python error. -/
inductive ErrKind where
  | badParameter (msg hint : Str)
  | click (msg : Str)
  | internal (msg : Str)
  | python
deriving DecidableEq

/-- Reclassification of a raised cli_error outcome. -/
def outcomeErr : CliOutcome → ErrKind
  | CliOutcome.clickException m => ErrKind.click m
  | CliOutcome.pythonError => ErrKind.python

/-- Result of processing one ok page on the JSON output path. -/
inductive Step where
  | emit (s : Str)
  | clickErr (msg : Str)
  | internalErr (msg : Str)
  | pythonErr
deriving DecidableEq

/-- The fragment prefix "[\n" checked on continuation pages. -/
def lbnl : Str := ['[', '\n']

/-- The fragment suffix checked on non-final pages. -/
def closeSuf : Str := ['\x7d', '\n', ']']

/-- The replacement "}," reopening the array for the next fragment. -/
def closeComma : Str := ['\x7d', ',']

/-- Second half of the per-page transformation: the has-next check and the
suffix surgery, applied to the (possibly prefix-stripped) rendered text. -/
def processNext (j : Json) (r1 : Str) : Step :=
  match pyGetItem j kNext with
  | none => Step.pythonErr
  | some nx =>
    if truthy nx then
      if endswith r1 closeSuf then
        Step.emit (removesuffixPy r1 closeSuf ++ closeComma)
      else Step.internalErr invalidEndMsg
    else Step.emit r1

/-- Processing of one ok page on the JSON output path of the filter command
(src/onyx/cli.py): render data with json.dumps(..., indent=4), strip the
"[\n" prefix when the page has a previous page, replace the "}\n]" suffix by
"}," when it has a next page, checks failing with a hard Exception; a body
that fails to parse is reported via ClickException(result.text). -/
def processOk (resp : Response) : Step :=
  match resp.jsonBody with
  | none => Step.clickErr resp.text
  | some j =>
    match pyGetItem j kData with
    | none => Step.pythonErr
    | some d =>
      match pyGetItem j kPrevious with
      | none => Step.pythonErr
      | some pv =>
        if truthy pv then
          if startswith (dumps d 0) lbnl then
            processNext j (removeprefixPy (dumps d 0) lbnl)
          else Step.internalErr invalidStartMsg
        else processNext j (dumps d 0)

/-- Observable outcome of a filter invocation: everything written to stdout,
the error that terminated it (if any), and how many page requests were made. -/
structure RunOut where
  output : Str
  error : Option ErrKind
  requests : Nat
deriving DecidableEq

/-- The JSON output loop of the filter command: pages are pulled one at a
time; each ok page's transformed fragment is written by typer.echo (which
appends a newline); a not-ok page is reported through cli_error; any raised
error terminates the stream with all previously written output kept. -/
def runJson : List PageResult → RunOut
  | [] => ⟨[], none, 0⟩
  | p :: ps =>
    if p.ok then
      match processOk p.resp with
      | Step.emit s =>
        let r := runJson ps
        ⟨s ++ '\n' :: r.output, r.error, r.requests + 1⟩
      | Step.clickErr m => ⟨[], some (ErrKind.click m), 1⟩
      | Step.internalErr m => ⟨[], some (ErrKind.internal m), 1⟩
      | Step.pythonErr => ⟨[], some ErrKind.python, 1⟩
    else ⟨[], some (outcomeErr (cli_error p.resp)), 1⟩

/-- str.split("=") with no maxsplit: split on every occurrence. -/
def splitEq : Str → List Str
  | [] => [[]]
  | c :: cs =>
    if c = '=' then [] :: splitEq cs
    else
      match splitEq cs with
      | [] => [[c]]
      | p :: ps => (c :: p) :: ps

/-- name.replace(".", "__"). -/
def replaceDots (s : Str) : Str :=
  s.flatMap (fun c => if c = '.' then ['_', '_'] else [c])

/-- fields.setdefault(name, []).append(value) on an insertion-ordered dict. -/
def appendAt (acc : List (Str × List Str)) (k : Str) (v : Str) : List (Str × List Str) :=
  if (acc.map Prod.fst).contains k then
    acc.map (fun kv => if kv.1 == k then (kv.1, kv.2 ++ [v]) else kv)
  else acc ++ [(k, [v])]

/-- The criteria loop of the filter command: each raw name=value string is
split on "="; an unpack into exactly two parts failing raises BadParameter
naming the -f / --field flag; dots in the name become "__" and values
accumulate per name. -/
def parseFieldsGo : List Str → List (Str × List Str) → Except ErrKind (List (Str × List Str))
  | [], acc => Except.ok acc
  | a :: as, acc =>
    match splitEq a with
    | [n, v] => parseFieldsGo as (appendAt acc (replaceDots n) v)
    | _ => Except.error (ErrKind.badParameter malformedMsg fieldHint)

/-- The query mapping built from the raw -f / --field criteria. -/
def parseFields (args : List Str) : Except ErrKind (List (Str × List Str)) :=
  parseFieldsGo args []

/-- A record as pulled from the record stream: an insertion-ordered mapping
from field name to value. -/
abbrev Record := List (Str × Json)

/-- Modelled from the spec: records of the stream are ordered field mappings
(§3 Record); a page's data elements are those mappings. -/
def recordOfJson : Json → Record
  | Json.obj kvs => kvs
  | _ => []

/-- The data array of a page body, when the body parses and carries one. -/
def getData (p : PageResult) : Option (List Json) :=
  match p.resp.jsonBody with
  | some j =>
    match pyGetItem j kData with
    | some (Json.arr l) => some l
    | _ => none
  | none => none

/-- Whether a CSV field must be quoted under QUOTE_MINIMAL. -/
def needsQuote (delim : Char) (s : Str) : Bool :=
  s.any (fun c => c = delim || c = '"' || c = '\r' || c = '\n')

/-- One CSV field, quoted if needed, with embedded quotes doubled. -/
def csvField (delim : Char) (s : Str) : Str :=
  if needsQuote delim s then
    '"' :: (s.flatMap (fun c => if c = '"' then ['"', '"'] else [c]) ++ ['"'])
  else s

/-- One CSV line: delimiter-joined fields plus the default "\r\n" terminator
of the csv module. -/
def csvLine (delim : Char) (cells : List Str) : Str :=
  List.intercalate [delim] (cells.map (csvField delim)) ++ ['\r', '\n']

/-- The cell text the csv writer produces for a value: str(value), except
that None is written as the empty string. -/
def csvCell : Json → Str
  | Json.null => []
  | v => pyStr v

/-- DictWriter.writerow: values in fieldnames order, missing keys filled with
the restval (None, written empty); a key outside fieldnames raises ValueError
(extrasaction="raise" is the default), modelled as none. -/
def writeRow (delim : Char) (fns : List Str) (r : Record) : Option Str :=
  if r.all (fun kv => fns.contains kv.1) then
    some (csvLine delim (fns.map (fun f =>
      match List.lookup f r with
      | some v => csvCell v
      | none => [])))
  else none

/-- The writerow loop over a run of records: the rows written so far and
whether every writerow succeeded (a ValueError from a record whose keys fall
outside the fieldnames stops the loop, keeping earlier rows). -/
def csvRows (delim : Char) (fns : List Str) : List Record → Str × Bool
  | [] => ([], true)
  | r :: rs =>
    match writeRow delim fns r with
    | none => ([], false)
    | some row =>
      let rest := csvRows delim fns rs
      (row ++ rest.1, rest.2)

/-- Modelled from the spec: the tail of the delimited output branch after the
first record was found.  The OnyxClient.filter record generator is not part
of the repository sources; per §4.3 it yields each ok page's data records in
order and surfaces a not-ok page as a terminal OnyxError, which the cli
reports through cli_error.  A page whose body does not parse as the expected
envelope is an uncaught decode error. -/
def csvPages (delim : Char) (fns : List Str) : List PageResult → Nat → RunOut
  | [], n => ⟨[], none, n⟩
  | p :: ps, n =>
    if p.ok then
      match getData p with
      | none => ⟨[], some ErrKind.python, n + 1⟩
      | some ds =>
        let rows := csvRows delim fns (ds.map recordOfJson)
        if rows.2 then
          let rest := csvPages delim fns ps (n + 1)
          ⟨rows.1 ++ rest.output, rest.error, rest.requests⟩
        else ⟨rows.1, some ErrKind.python, n + 1⟩
    else ⟨[], some (outcomeErr (cli_error p.resp)), n + 1⟩

/-- Modelled from the spec: the delimited output branch of the filter command
driven by the record stream of §4.3 (the OnyxClient.filter generator is not
part of the repository sources).  next(records, None) pulls pages until the
first record, the stream end, or an error; a falsy first record (or an empty
stream) writes nothing and pulls nothing further; otherwise the header is
written from the first record's key order, the first record's row follows,
then the rest of the page and the remaining pages are consumed. -/
def csvStart (delim : Char) : List PageResult → Nat → RunOut
  | [], n => ⟨[], none, n⟩
  | p :: ps, n =>
    if p.ok then
      match getData p with
      | none => ⟨[], some ErrKind.python, n + 1⟩
      | some ds =>
        match ds.map recordOfJson with
        | [] => csvStart delim ps (n + 1)
        | r :: rs =>
          if r.isEmpty then ⟨[], none, n + 1⟩
          else
            match writeRow delim (r.map Prod.fst) r with
            | none => ⟨csvLine delim (r.map Prod.fst), some ErrKind.python, n + 1⟩
            | some row1 =>
              let rows := csvRows delim (r.map Prod.fst) rs
              if rows.2 then
                let rest := csvPages delim (r.map Prod.fst) ps (n + 1)
                ⟨csvLine delim (r.map Prod.fst) ++ row1 ++ rows.1 ++ rest.output,
                  rest.error, rest.requests⟩
              else
                ⟨csvLine delim (r.map Prod.fst) ++ row1 ++ rows.1,
                  some ErrKind.python, n + 1⟩
    else ⟨[], some (outcomeErr (cli_error p.resp)), n + 1⟩

/-- The -F / --format choices of the filter command. -/
inductive Formats where
  | json
  | csv
  | tsv
deriving DecidableEq

/-- The filter command (src/onyx/cli.py): build the query mapping from the
raw -f / --field criteria (failing fast with zero requests), then drive the
chosen output path over the page stream. -/
def filterCommand (fmt : Formats) (fieldArgs : List Str) (pages : List PageResult) : RunOut :=
  match parseFields fieldArgs with
  | Except.error e => ⟨[], some e, 0⟩
  | Except.ok _ =>
    match fmt with
    | Formats.json => runJson pages
    | Formats.csv => csvStart ',' pages 0
    | Formats.tsv => csvStart '\t' pages 0

/-- A node of the field specification tree: requiredness, type, optional
description, optional enumerated values, and child fields (meaningful for
relation nodes). -/
inductive FieldInfo where
  | mk (required : Bool) (ftype : Str) (description : Option Str)
      (values : Option (List Str)) (fields : List (Str × FieldInfo))

/-- Requiredness of a field. -/
def FieldInfo.required : FieldInfo → Bool
  | FieldInfo.mk r _ _ _ _ => r

/-- Declared type of a field. -/
def FieldInfo.ftype : FieldInfo → Str
  | FieldInfo.mk _ t _ _ _ => t

/-- Optional description of a field. -/
def FieldInfo.description : FieldInfo → Option Str
  | FieldInfo.mk _ _ d _ _ => d

/-- Optional enumerated values of a field. -/
def FieldInfo.values : FieldInfo → Option (List Str)
  | FieldInfo.mk _ _ _ v _ => v

/-- Child fields of a field. -/
def FieldInfo.fields : FieldInfo → List (Str × FieldInfo)
  | FieldInfo.mk _ _ _ _ f => f

/-- One row of the fields table: field cell, status cell, type cell,
description cell, values cell. -/
structure Row where
  field : Str
  status : Str
  ftype : Str
  description : Str
  values : Str
deriving DecidableEq

/-- The type string "relation". -/
def relationStr : Str := ['r', 'e', 'l', 'a', 't', 'i', 'o', 'n']

/-- The status cell: rich-styled required or optional marker. -/
def requiredCell (b : Bool) : Str :=
  if b then "[bold red]required[/]".toList else "[bold cyan]optional[/]".toList

/-- The values cell: ", ".join(values) when the values list is truthy, else
empty. -/
def valuesCell : Option (List Str) → Str
  | some (v :: vs) => List.intercalate [',', ' '] (v :: vs)
  | _ => []

/-- The field cell: nested fields show the dimmed parent-prefixed dotted
path, top-level fields just their name. -/
def rowName (pre : Option Str) (field : Str) : Str :=
  match pre with
  | some p => "[dim]".toList ++ p ++ '.' :: field ++ "[/dim]".toList
  | none => field

/-- The prefix passed to a relation's children. -/
def childPre (pre : Option Str) (field : Str) : Str :=
  match pre with
  | some p => p ++ '.' :: field
  | none => field

/-- The row emitted for one field. -/
def mkRow (field : Str) (info : FieldInfo) (pre : Option Str) : Row :=
  ⟨rowName pre field, requiredCell info.required, info.ftype,
    info.description.getD [], valuesCell info.values⟩

mutual

/-- add_fields (src/onyx/cli.py): walk the field mapping in order, append one
row per field, and recurse into the children of relation fields with the
extended dotted prefix. -/
def addFields : List (Str × FieldInfo) → Option Str → List Row
  | [], _ => []
  | (field, info) :: rest, pre => addFieldRows field info pre ++ addFields rest pre

/-- Rows of a single field: its own row first, then (for relation fields)
its children's rows. -/
def addFieldRows : Str → FieldInfo → Option Str → List Row
  | field, FieldInfo.mk rq t dsc vs flds, pre =>
    mkRow field (FieldInfo.mk rq t dsc vs flds) pre ::
      (if t = relationStr then addFields flds (some (childPre pre field))
       else [])

end

mutual

/-- Written from the words of the spec (§4.6), for comparison with
addFields: the depth-first list of dotted paths, parent-prefixed, each node
before its children, paired with whether the node is nested. -/
def specFieldPaths : List (Str × FieldInfo) → Option Str → List (Str × Bool)
  | [], _ => []
  | (field, info) :: rest, pre => specNodePaths field info pre ++ specFieldPaths rest pre

/-- Paths of a single node and, below it, of its children. -/
def specNodePaths : Str → FieldInfo → Option Str → List (Str × Bool)
  | field, FieldInfo.mk _ t _ _ flds, pre =>
    (childPre pre field, pre.isSome) ::
      (if t = relationStr then specFieldPaths flds (some (childPre pre field))
       else [])

end

/-- How a path is displayed in the field cell: dimmed when nested. -/
def decoratePath : Str × Bool → Str
  | (p, true) => "[dim]".toList ++ p ++ "[/dim]".toList
  | (p, false) => p

/-- Whether a JSON value is an object (a record). -/
def isObjB : Json → Bool
  | Json.obj _ => true
  | _ => false

/-- An ok page whose body is the pagination envelope for a given data array
and cursor flags. -/
def mkOkPage (d : List Json) (hasPrev hasNext : Bool) : PageResult :=
  ⟨true, ⟨some (Json.obj
      [(kData, Json.arr d), (kPrevious, Json.bool hasPrev), (kNext, Json.bool hasNext)]), []⟩⟩

/-- The canonical N-page stream of C1: page i has has_previous = (i > 0) and
has_next = (i < N-1); the boolean argument says whether the first page of the
remaining list has a previous page. -/
def mkPages : List (List Json) → Bool → List PageResult
  | [], _ => []
  | [d], pv => [mkOkPage d pv false]
  | d :: d2 :: ds, pv => mkOkPage d pv true :: mkPages (d2 :: ds) true

end OnyxClient


namespace OnyxClient

/-- Values paired with key k among parsed criteria, in insertion order. -/
def valsOf (k : Str) (pairs : List (Str × Str)) : List Str :=
  (pairs.filter (fun pr => pr.1 == k)).map Prod.snd

/-- The (rewritten-name, value) pair of one well-formed raw criterion; the
fallback for a malformed criterion is irrelevant, as parsing fails there. -/
def parsePair (a : Str) : Str × Str :=
  match splitEq a with
  | [n, v] => (replaceDots n, v)
  | _ => ([], [])

/-- Combination of the values a key already holds with those still to come. -/
def combineVals : Option (List Str) → List Str → Option (List Str)
  | some vs, l => some (vs ++ l)
  | none, l => if l.isEmpty then none else some l

/-- A well-formed nonempty data array of records, as the stitching
invariant requires. -/
def pageWf (d : List Json) : Bool := !d.isEmpty && d.all isObjB

/-- An ok page carrying an empty data array. -/
def emptyOkPage (p : PageResult) : Bool :=
  p.ok &&
    match getData p with
    | some [] => true
    | _ => false

end OnyxClient

namespace OnyxClient

theorem startswith_append (p r : Str) : startswith (p ++ r) p = true := by
  simp [startswith, List.isPrefixOf_iff_prefix, List.prefix_append]

theorem removeprefixPy_append (p r : Str) : removeprefixPy (p ++ r) p = r := by
  simp [removeprefixPy, List.isPrefixOf_iff_prefix, List.prefix_append]

theorem endswith_append (a s : Str) : endswith (a ++ s) s = true := by
  simp [endswith, List.isSuffixOf_iff_suffix, List.suffix_append]

theorem removesuffixPy_append (a s : Str) : removesuffixPy (a ++ s) s = a := by
  simp [removesuffixPy, List.isSuffixOf_iff_suffix, List.suffix_append]

end OnyxClient

namespace OnyxClient

theorem dumps_arr_of_ne (l : List Json) (d : Nat) (h : l ≠ []) :
    dumps (Json.arr l) d = '[' :: '\n' :: (dumpsArr l (d + 1) ++ '\n' :: (pad (4 * d) ++ [']'])) := by
  cases l with
  | nil => exact absurd rfl h
  | cons e es => rfl

theorem dumpsArr_append (A B : List Json) (d : Nat) (hA : A ≠ []) (hB : B ≠ []) :
    dumpsArr (A ++ B) d = dumpsArr A d ++ ',' :: '\n' :: dumpsArr B d := by
  induction A with
  | nil => exact absurd rfl hA
  | cons a as ih =>
    cases as with
    | nil =>
      cases B with
      | nil => exact absurd rfl hB
      | cons b bs => simp [dumpsArr]
    | cons a2 as2 =>
      have h2 : a2 :: as2 ≠ [] := List.cons_ne_nil _ _
      have e1 : dumpsArr ((a :: a2 :: as2) ++ B) d
          = pad (4 * d) ++ dumps a d ++ ',' :: '\n' :: dumpsArr ((a2 :: as2) ++ B) d := rfl
      have e2 : dumpsArr (a :: a2 :: as2) d
          = pad (4 * d) ++ dumps a d ++ ',' :: '\n' :: dumpsArr (a2 :: as2) d := rfl
      rw [e1, ih h2, e2]
      simp [List.append_assoc]

theorem dumps_obj_ends (kvs : List (Str × Json)) (d : Nat) :
    ∃ t, dumps (Json.obj kvs) d = t ++ ['\x7d'] := by
  cases kvs with
  | nil => exact ⟨['\x7b'], rfl⟩
  | cons kv rest =>
    refine ⟨'\x7b' :: '\n' :: (dumpsObj (kv :: rest) (d + 1) ++ '\n' :: pad (4 * d)), ?_⟩
    simp [dumps]

theorem dumpsArr_ends_obj (l : List Json) (d : Nat) (h : l ≠ [])
    (hobj : ∀ e ∈ l, isObjB e = true) : ∃ t, dumpsArr l d = t ++ ['\x7d'] := by
  induction l with
  | nil => exact absurd rfl h
  | cons e es ih =>
    cases es with
    | nil =>
      have he : isObjB e = true := hobj e (List.mem_cons_self e [])
      cases e with
      | obj kvs =>
        obtain ⟨t, ht⟩ := dumps_obj_ends kvs d
        exact ⟨pad (4 * d) ++ t, by simp [dumpsArr, ht]⟩
      | null => simp [isObjB] at he
      | bool b => simp [isObjB] at he
      | num n => simp [isObjB] at he
      | str s => simp [isObjB] at he
      | arr es => simp [isObjB] at he
    | cons e2 es2 =>
      have h2 : e2 :: es2 ≠ [] := List.cons_ne_nil _ _
      obtain ⟨t, ht⟩ := ih h2 (fun x hx => hobj x (List.mem_cons_of_mem e hx))
      refine ⟨pad (4 * d) ++ dumps e d ++ ',' :: '\n' :: t, ?_⟩
      simp [dumpsArr, ht]

end OnyxClient

namespace OnyxClient

/-- C2: for every ok page processed by the JSON output path (whose body is
the pagination envelope), a truthy previous cursor with a rendered data text
not starting with "[" then newline raises the hard internal Exception (not a
user-facing ClickException); a truthy next cursor with the (possibly
prefix-stripped) text not ending in closing-brace, newline, "]" likewise
raises the hard internal Exception; otherwise the prefix is removed and the
suffix is replaced by closing-brace-comma respectively. -/
theorem c2_stitch_invariant_errors (resp : Response) (j d pv nx : Json)
    (hb : resp.jsonBody = some j)
    (hd : pyGetItem j kData = some d)
    (hp : pyGetItem j kPrevious = some pv)
    (hn : pyGetItem j kNext = some nx) :
    (truthy pv = true → startswith (dumps d 0) lbnl = false →
      processOk resp = Step.internalErr invalidStartMsg) ∧
    ((truthy pv = true → startswith (dumps d 0) lbnl = true) →
      truthy nx = true →
      endswith (if truthy pv then removeprefixPy (dumps d 0) lbnl else dumps d 0) closeSuf = false →
      processOk resp = Step.internalErr invalidEndMsg) ∧
    ((truthy pv = true → startswith (dumps d 0) lbnl = true) →
      (truthy nx = true →
        endswith (if truthy pv then removeprefixPy (dumps d 0) lbnl else dumps d 0) closeSuf = true) →
      processOk resp = Step.emit
        (if truthy nx then
          removesuffixPy (if truthy pv then removeprefixPy (dumps d 0) lbnl else dumps d 0) closeSuf
            ++ closeComma
         else if truthy pv then removeprefixPy (dumps d 0) lbnl else dumps d 0)) := by
  refine ⟨?_, ?_, ?_⟩
  · intro hpv hsw
    simp [processOk, hb, hd, hp, hpv, hsw]
  · intro hchk hnx hend
    by_cases hpv : truthy pv = true
    · rw [if_pos hpv] at hend
      have hsw := hchk hpv
      simp [processOk, hb, hd, hp, hpv, hsw, processNext, hn, hnx, hend]
    · have hpv2 : truthy pv = false := Bool.eq_false_iff.mpr hpv
      rw [if_neg hpv] at hend
      simp [processOk, hb, hd, hp, hpv2, processNext, hn, hnx, hend]
  · intro hchk hend
    by_cases hnx : truthy nx = true
    · have hend2 := hend hnx
      by_cases hpv : truthy pv = true
      · rw [if_pos hpv] at hend2 ⊢
        have hsw := hchk hpv
        simp [processOk, hb, hd, hp, hpv, hsw, processNext, hn, hnx, hend2]
      · have hpv2 : truthy pv = false := Bool.eq_false_iff.mpr hpv
        rw [if_neg hpv] at hend2 ⊢
        simp [processOk, hb, hd, hp, hpv2, processNext, hn, hnx, hend2]
    · have hnx2 : truthy nx = false := Bool.eq_false_iff.mpr hnx
      rw [if_neg hnx]
      by_cases hpv : truthy pv = true
      · have hsw := hchk hpv
        simp [processOk, hb, hd, hp, hpv, hsw, processNext, hn, hnx2]
      · have hpv2 : truthy pv = false := Bool.eq_false_iff.mpr hpv
        simp [processOk, hb, hd, hp, hpv2, processNext, hn, hnx2]

/-- Witness for C2: a continuation page whose data is the empty array
renders as "[]", fails the prefix check, and raises the internal error. -/
theorem c2_stitch_invariant_errors_witness :
    processOk ⟨some (Json.obj [(kData, Json.arr []), (kPrevious, Json.bool true),
      (kNext, Json.bool false)]), []⟩ = Step.internalErr invalidStartMsg := by
  exact (c2_stitch_invariant_errors
    ⟨some (Json.obj [(kData, Json.arr []), (kPrevious, Json.bool true),
      (kNext, Json.bool false)]), []⟩
    (Json.obj [(kData, Json.arr []), (kPrevious, Json.bool true), (kNext, Json.bool false)])
    (Json.arr []) (Json.bool true) (Json.bool false)
    rfl rfl rfl rfl).1 rfl (by decide)

end OnyxClient

namespace OnyxClient

theorem pageWf_iff (d : List Json) :
    pageWf d = true ↔ (d ≠ [] ∧ ∀ e ∈ d, isObjB e = true) := by
  simp [pageWf, List.isEmpty_iff, List.all_eq_true]

theorem processOk_mk (d : List Json) (pv nx : Bool) (hne : d ≠ [])
    (hobj : ∀ e ∈ d, isObjB e = true) :
    processOk (mkOkPage d pv nx).resp = Step.emit
      ((if pv then ([] : Str) else lbnl) ++ dumpsArr d 1 ++ (if nx then [','] else ['\n', ']'])) := by
  obtain ⟨t, ht⟩ := dumpsArr_ends_obj d 1 hne hobj
  have hr0 : dumps (Json.arr d) 0 = lbnl ++ (dumpsArr d 1 ++ ['\n', ']']) := by
    rw [dumps_arr_of_ne d 0 hne]; simp [pad, lbnl]
  have hdl : pyGetItem (Json.obj [(kData, Json.arr d), (kPrevious, Json.bool pv),
      (kNext, Json.bool nx)]) kData = some (Json.arr d) := by
    simp [pyGetItem, List.lookup]
  have hpl : pyGetItem (Json.obj [(kData, Json.arr d), (kPrevious, Json.bool pv),
      (kNext, Json.bool nx)]) kPrevious = some (Json.bool pv) := by
    have h1 : (kPrevious == kData) = false := by decide
    simp [pyGetItem, List.lookup, h1]
  have hnl : pyGetItem (Json.obj [(kData, Json.arr d), (kPrevious, Json.bool pv),
      (kNext, Json.bool nx)]) kNext = some (Json.bool nx) := by
    have h1 : (kNext == kData) = false := by decide
    have h2 : (kNext == kPrevious) = false := by decide
    simp [pyGetItem, List.lookup, h1, h2]
  have hesA : ∀ u : Str, endswith (lbnl ++ (u ++ ['\x7d', '\n', ']'])) closeSuf = true := by
    intro u
    have he : lbnl ++ (u ++ ['\x7d', '\n', ']']) = (lbnl ++ u) ++ closeSuf := by
      simp [closeSuf, List.append_assoc]
    rw [he]; exact endswith_append _ _
  have hrsA : ∀ u : Str, removesuffixPy (lbnl ++ (u ++ ['\x7d', '\n', ']'])) closeSuf = lbnl ++ u := by
    intro u
    have he : lbnl ++ (u ++ ['\x7d', '\n', ']']) = (lbnl ++ u) ++ closeSuf := by
      simp [closeSuf, List.append_assoc]
    rw [he]; exact removesuffixPy_append _ _
  have hesB : ∀ u : Str, endswith (u ++ ['\x7d', '\n', ']']) closeSuf = true := by
    intro u
    have he : u ++ ['\x7d', '\n', ']'] = u ++ closeSuf := by simp [closeSuf]
    rw [he]; exact endswith_append _ _
  have hrsB : ∀ u : Str, removesuffixPy (u ++ ['\x7d', '\n', ']']) closeSuf = u := by
    intro u
    have he : u ++ ['\x7d', '\n', ']'] = u ++ closeSuf := by simp [closeSuf]
    rw [he]; exact removesuffixPy_append _ _
  cases pv <;> cases nx <;>
    simp [processOk, mkOkPage, hdl, hpl, hnl, processNext, truthy, startswith_append,
      removeprefixPy_append, hesA, hrsA, hesB, hrsB, hr0, ht, closeComma, List.append_assoc]

theorem runJson_mkPages (datas : List (List Json)) (pv : Bool)
    (hne : datas ≠ []) (h : ∀ d ∈ datas, pageWf d = true) :
    runJson (mkPages datas pv) =
      ⟨(if pv then ([] : Str) else lbnl) ++ dumpsArr datas.flatten 1 ++ ['\n', ']', '\n'],
        none, datas.length⟩ := by
  induction datas generalizing pv with
  | nil => exact absurd rfl hne
  | cons d rest ih =>
    obtain ⟨hd1, hd2⟩ := (pageWf_iff d).mp (h d (List.mem_cons_self d rest))
    cases rest with
    | nil =>
      have hstep := processOk_mk d pv false hd1 hd2
      simp only [mkOkPage] at hstep
      simp [mkPages, runJson, mkOkPage, hstep, List.append_assoc]
    | cons d2 rest2 =>
      have hrest : ∀ x ∈ d2 :: rest2, pageWf x = true :=
        fun x hx => h x (List.mem_cons_of_mem d hx)
      obtain ⟨hd21, _⟩ := (pageWf_iff d2).mp (hrest d2 (List.mem_cons_self d2 rest2))
      have hfl : (d2 :: rest2).flatten ≠ [] := by
        simp only [List.flatten_cons]
        exact fun hc => hd21 (List.append_eq_nil.mp hc).1
      have hstep := processOk_mk d pv true hd1 hd2
      simp only [mkOkPage] at hstep
      have hih := ih true (List.cons_ne_nil d2 rest2) hrest
      have happ := dumpsArr_append d (d2 :: rest2).flatten 1 hd1 hfl
      simp only [List.flatten_cons] at happ
      simp [mkPages, runJson, mkOkPage, hstep, hih, List.flatten_cons, happ, List.append_assoc]

/-- C1 (amended): for every nonempty sequence of N pages in which page i has
has_previous = (i > 0) and has_next = (i < N-1), each ok with the pagination
envelope and a nonempty data array of records (JSON objects), the JSON output
path writes exactly json.dumps(indent=4) of the concatenation, in order, of
the pages' data arrays, followed by the final echo newline, with no error and
one request per page. -/
theorem c1_fragment_stitcher (datas : List (List Json))
    (hne : datas ≠ []) (h : ∀ d ∈ datas, pageWf d = true) :
    filterCommand Formats.json [] (mkPages datas false) =
      ⟨dumps (Json.arr datas.flatten) 0 ++ ['\n'], none, datas.length⟩ := by
  have hfl : datas.flatten ≠ [] := by
    cases datas with
    | nil => exact absurd rfl hne
    | cons d rest =>
      obtain ⟨hd1, _⟩ := (pageWf_iff d).mp (h d (List.mem_cons_self d rest))
      simp only [List.flatten_cons]
      exact fun hc => hd1 (List.append_eq_nil.mp hc).1
  have hrun := runJson_mkPages datas false hne h
  have hcmd : filterCommand Formats.json [] (mkPages datas false) =
      runJson (mkPages datas false) := rfl
  rw [hcmd, hrun, dumps_arr_of_ne _ 0 hfl]
  simp [pad, lbnl, List.append_assoc]

/-- Witness for C1: two pages holding one record each. -/
theorem c1_fragment_stitcher_witness :
    filterCommand Formats.json []
      (mkPages [[Json.obj [(['a'], Json.str ['1'])]], [Json.obj []]] false) =
      ⟨dumps (Json.arr ([[Json.obj [(['a'], Json.str ['1'])]], [Json.obj []]] :
          List (List Json)).flatten) 0 ++ ['\n'], none, 2⟩ := by
  exact c1_fragment_stitcher _ (List.cons_ne_nil _ _) (by decide)

/-- Counterexample to C1 as stated: a two-page stream whose first page has an
empty data array makes the stitcher raise its internal Exception after
writing nothing, so no JSON array equal to the concatenated data is written. -/
theorem c1_fragment_stitcher_counterexample :
    filterCommand Formats.json [] (mkPages [[], [Json.obj []]] false) =
      ⟨[], some (ErrKind.internal invalidEndMsg), 1⟩ ∧
    ([] : Str) ≠ dumps (Json.arr ([[], [Json.obj []]] : List (List Json)).flatten) 0 ++ ['\n'] := by
  exact ⟨by decide, by decide⟩

end OnyxClient

namespace OnyxClient

theorem splitEq_ne_nil (s : Str) : splitEq s ≠ [] := by
  induction s with
  | nil => simp [splitEq]
  | cons c cs ih =>
    by_cases hc : c = '='
    · simp [splitEq, hc]
    · simp only [splitEq, if_neg hc]
      cases hsp : splitEq cs with
      | nil => simp
      | cons p ps => simp

theorem splitEq_length (s : Str) : (splitEq s).length = s.count '=' + 1 := by
  induction s with
  | nil => simp [splitEq]
  | cons c cs ih =>
    by_cases hc : c = '='
    · simp [splitEq, hc, List.count_cons, ih]
    · simp only [splitEq, if_neg hc]
      cases hsp : splitEq cs with
      | nil => exact absurd hsp (splitEq_ne_nil cs)
      | cons p ps =>
        rw [hsp] at ih
        simp only [List.length_cons] at ih ⊢
        have hbe : (c == '=') = false := by
          simp [hc]
        simp [List.count_cons, hbe, ih]

theorem parseFieldsGo_error (as : List Str) : ∀ acc, (∃ a ∈ as, a.count '=' ≠ 1) →
    parseFieldsGo as acc = Except.error (ErrKind.badParameter malformedMsg fieldHint) := by
  induction as with
  | nil =>
    intro acc hex
    simp at hex
  | cons a rest ih =>
    intro acc hex
    by_cases hcA : a.count '=' = 1
    · have hlen : (splitEq a).length = 2 := by rw [splitEq_length, hcA]
      cases hsp : splitEq a with
      | nil => exact absurd hsp (splitEq_ne_nil a)
      | cons p ps =>
        cases ps with
        | nil => rw [hsp] at hlen; simp at hlen
        | cons q qs =>
          cases qs with
          | cons r rs => rw [hsp] at hlen; simp at hlen
          | nil =>
            rcases hex with ⟨b, hb, hcnt⟩
            rcases List.mem_cons.mp hb with hba | hbrest
            · rw [hba] at hcnt; exact absurd hcA hcnt
            · simp only [parseFieldsGo, hsp]
              exact ih _ ⟨b, hbrest, hcnt⟩
    · have hlen : (splitEq a).length ≠ 2 := by rw [splitEq_length]; omega
      cases hsp : splitEq a with
      | nil => exact absurd hsp (splitEq_ne_nil a)
      | cons p ps =>
        cases ps with
        | nil => simp [parseFieldsGo, hsp]
        | cons q qs =>
          cases qs with
          | nil => rw [hsp] at hlen; simp at hlen
          | cons r rs => simp [parseFieldsGo, hsp]

theorem parseFieldsGo_ok (as : List Str) : ∀ acc, (∀ a ∈ as, a.count '=' = 1) →
    ∃ flds, parseFieldsGo as acc = Except.ok flds := by
  induction as with
  | nil => exact fun acc _ => ⟨acc, rfl⟩
  | cons a rest ih =>
    intro acc hall
    have hcA : a.count '=' = 1 := hall a (List.mem_cons_self a rest)
    have hlen : (splitEq a).length = 2 := by rw [splitEq_length, hcA]
    cases hsp : splitEq a with
    | nil => exact absurd hsp (splitEq_ne_nil a)
    | cons p ps =>
      cases ps with
      | nil => rw [hsp] at hlen; simp at hlen
      | cons q qs =>
        cases qs with
        | cons r rs => rw [hsp] at hlen; simp at hlen
        | nil =>
          obtain ⟨flds, hflds⟩ :=
            ih (appendAt acc (replaceDots p) q) (fun b hb => hall b (List.mem_cons_of_mem a hb))
          exact ⟨flds, by simp only [parseFieldsGo, hsp]; exact hflds⟩

/-- C3 (amended): the filter command splits each raw criterion on "=" and
unpacks into name and value; it fails with the BadParameter error naming the
-f / --field flag exactly when some criterion does not contain exactly one
"=" (not only when "=" is absent), and such a failure produces no output and
zero page requests. -/
theorem c3_malformed_criterion (fmt : Formats) (args : List Str) (pages : List PageResult) :
    ((∃ a ∈ args, a.count '=' ≠ 1) →
      filterCommand fmt args pages =
        ⟨[], some (ErrKind.badParameter malformedMsg fieldHint), 0⟩) ∧
    ((∀ a ∈ args, a.count '=' = 1) → ∃ flds, parseFields args = Except.ok flds) := by
  constructor
  · intro hex
    have herr := parseFieldsGo_error args [] hex
    simp [filterCommand, parseFields, herr]
  · intro hall
    exact parseFieldsGo_ok args [] hall

/-- Witness for C3: a criterion without "=" fails with zero requests, while
a well-formed criterion parses. -/
theorem c3_malformed_criterion_witness :
    filterCommand Formats.csv ["ab".toList] [] =
      ⟨[], some (ErrKind.badParameter malformedMsg fieldHint), 0⟩ ∧
    ∃ flds, parseFields ["a=b".toList] = Except.ok flds := by
  constructor
  · exact (c3_malformed_criterion Formats.csv ["ab".toList] []).1
      ⟨"ab".toList, List.mem_cons_self _ _, by decide⟩
  · exact (c3_malformed_criterion Formats.csv ["a=b".toList] []).2 (by decide)

/-- Counterexample to C3 as stated: "a=b=c" contains "=" yet the command
still fails with the BadParameter error, so failure is not equivalent to the
absence of "=". -/
theorem c3_malformed_criterion_counterexample :
    ('=' ∈ "a=b=c".toList) ∧
    filterCommand Formats.json ["a=b=c".toList] [] =
      ⟨[], some (ErrKind.badParameter malformedMsg fieldHint), 0⟩ :=
  ⟨by decide, by decide⟩

end OnyxClient

namespace OnyxClient

theorem appendAt_cons_ne (k1 : Str) (vs1 : List Str) (rest : List (Str × List Str))
    (k v : Str) (hne : k1 ≠ k) :
    appendAt ((k1, vs1) :: rest) k v = (k1, vs1) :: appendAt rest k v := by
  have h2 : k1 = k ↔ False := iff_false_intro hne
  by_cases hc : k ∈ rest.map Prod.fst
  · simp [appendAt, hc, h2, Ne.symm hne]
  · simp [appendAt, hc, h2, Ne.symm hne]

theorem appendAt_cons_eq (k : Str) (vs1 : List Str) (rest : List (Str × List Str))
    (v : Str) (hnmem : k ∉ rest.map Prod.fst) :
    appendAt ((k, vs1) :: rest) k v = (k, vs1 ++ [v]) :: rest := by
  have hmap : rest.map (fun kv => if kv.1 = k then (kv.1, kv.2 ++ [v]) else kv) =
      rest.map id := by
    apply List.map_congr_left
    intro kv hkv
    have hx : kv.1 ≠ k := fun hc => hnmem (hc ▸ List.mem_map_of_mem Prod.fst hkv)
    simp [hx]
  simp [appendAt, hmap]

theorem keys_appendAt (acc : List (Str × List Str)) (k v : Str) :
    (appendAt acc k v).map Prod.fst =
      if k ∈ acc.map Prod.fst then acc.map Prod.fst else acc.map Prod.fst ++ [k] := by
  by_cases hm : k ∈ acc.map Prod.fst
  · have hmap : (acc.map (fun kv => if kv.1 = k then (kv.1, kv.2 ++ [v]) else kv)).map
        Prod.fst = acc.map Prod.fst := by
      rw [List.map_map]
      apply List.map_congr_left
      intro kv _
      by_cases hkv : kv.1 = k <;> simp [hkv]
    simp [appendAt, hm, hmap]
  · simp [appendAt, hm]

theorem nodup_appendAt (acc : List (Str × List Str)) (k v : Str)
    (hnd : (acc.map Prod.fst).Nodup) : ((appendAt acc k v).map Prod.fst).Nodup := by
  rw [keys_appendAt]
  by_cases hm : k ∈ acc.map Prod.fst
  · simp [hm, hnd]
  · simp [hm, List.nodup_append, hnd]

theorem lookup_appendAt (acc : List (Str × List Str)) (k v : Str)
    (hnd : (acc.map Prod.fst).Nodup) (k2 : Str) :
    List.lookup k2 (appendAt acc k v) =
      if k2 = k then some (((List.lookup k acc).getD []) ++ [v])
      else List.lookup k2 acc := by
  induction acc with
  | nil =>
    by_cases hk2 : k2 = k
    · simp [appendAt, List.lookup_cons, hk2]
    · have hb : (k2 == k) = false := by simp [hk2]
      simp [appendAt, List.lookup_cons, hk2, hb]
  | cons kv1 rest ih =>
    obtain ⟨k1, vs1⟩ := kv1
    have hnd0 : (k1 :: rest.map Prod.fst).Nodup := by simpa using hnd
    have hk1nm : k1 ∉ rest.map Prod.fst := (List.nodup_cons.mp hnd0).1
    have hnd2 : (rest.map Prod.fst).Nodup := (List.nodup_cons.mp hnd0).2
    by_cases hk : k1 = k
    · rw [hk] at hk1nm ⊢
      rw [appendAt_cons_eq k vs1 rest v hk1nm]
      by_cases hk2 : k2 = k
      · simp [hk2, List.lookup_cons]
      · have hb : (k2 == k) = false := by simp [hk2]
        simp [List.lookup_cons, hk2, hb]
    · rw [appendAt_cons_ne k1 vs1 rest k v hk]
      by_cases hk2 : k2 = k1
      · have hk2k : k2 ≠ k := by rw [hk2]; exact hk
        simp [List.lookup_cons, hk2, hk2k, hk]
      · have hkk1 : k ≠ k1 := fun hc => hk hc.symm
        have hb1 : (k2 == k1) = false := by simp [hk2]
        have hbk : (k == k1) = false := by simp [hkk1]
        simp [List.lookup_cons, hb1, hbk, ih hnd2]

end OnyxClient

namespace OnyxClient

theorem replaceDots_no_dot (s : Str) : '.' ∉ replaceDots s := by
  intro hmem
  simp only [replaceDots, List.mem_flatMap] at hmem
  obtain ⟨c, _, hm⟩ := hmem
  by_cases hc : c = '.'
  · simp [hc] at hm
  · simp [hc] at hm
    exact hc hm.symm

theorem parsePair_no_dot (a : Str) : '.' ∉ (parsePair a).1 := by
  cases hsp : splitEq a with
  | nil => simp [parsePair, hsp]
  | cons p ps =>
    cases ps with
    | nil => simp [parsePair, hsp]
    | cons q qs =>
      cases qs with
      | nil =>
        simp only [parsePair, hsp]
        exact replaceDots_no_dot p
      | cons r rs => simp [parsePair, hsp]

theorem valsOf_nil (k : Str) : valsOf k [] = [] := rfl

theorem combineVals_nil (o : Option (List Str)) : combineVals o [] = o := by
  cases o <;> simp [combineVals]

theorem valsOf_cons (k : Str) (pr : Str × Str) (pairs : List (Str × Str)) :
    valsOf k (pr :: pairs) =
      if pr.1 = k then pr.2 :: valsOf k pairs else valsOf k pairs := by
  by_cases hp : pr.1 = k
  · simp [valsOf, List.filter_cons, hp]
  · simp [valsOf, List.filter_cons, hp]

theorem parseFieldsGo_char (as : List Str) : ∀ (acc flds : List (Str × List Str)),
    (acc.map Prod.fst).Nodup →
    parseFieldsGo as acc = Except.ok flds →
    ((flds.map Prod.fst).Nodup ∧
     (∀ k, k ∈ flds.map Prod.fst ↔
        (k ∈ acc.map Prod.fst ∨ k ∈ as.map (fun a => (parsePair a).1))) ∧
     (∀ k, List.lookup k flds = combineVals (List.lookup k acc) (valsOf k (as.map parsePair)))) := by
  induction as with
  | nil =>
    intro acc flds hnd hok
    have hfe : acc = flds := by simpa [parseFieldsGo] using hok
    subst hfe
    refine ⟨hnd, ?_, ?_⟩
    · intro k; simp
    · intro k; simp [valsOf_nil, combineVals_nil]
  | cons a rest ih =>
    intro acc flds hnd hok
    cases hsp : splitEq a with
    | nil => exact absurd hsp (splitEq_ne_nil a)
    | cons p ps =>
      cases ps with
      | nil => simp [parseFieldsGo, hsp] at hok
      | cons q qs =>
        cases qs with
        | cons r rs => simp [parseFieldsGo, hsp] at hok
        | nil =>
          have hpair : parsePair a = (replaceDots p, q) := by simp [parsePair, hsp]
          have hok2 : parseFieldsGo rest (appendAt acc (replaceDots p) q) = Except.ok flds := by
            simpa [parseFieldsGo, hsp] using hok
          have hnd2 := nodup_appendAt acc (replaceDots p) q hnd
          obtain ⟨ha, hb, hc⟩ := ih (appendAt acc (replaceDots p) q) flds hnd2 hok2
          refine ⟨ha, ?_, ?_⟩
          · intro k
            rw [hb k, keys_appendAt]
            have hshape : k ∈ (a :: rest).map (fun x => (parsePair x).1) ↔
                (k = replaceDots p ∨ k ∈ rest.map (fun x => (parsePair x).1)) := by
              simp [hpair]
            rw [hshape]
            by_cases hm : replaceDots p ∈ acc.map Prod.fst
            · rw [if_pos hm]
              constructor
              · intro h; tauto
              · intro h
                rcases h with h1 | h2 | h3
                · exact Or.inl h1
                · exact Or.inl (by rw [h2]; exact hm)
                · exact Or.inr h3
            · rw [if_neg hm]
              simp only [List.mem_append, List.mem_singleton]
              tauto
          · intro k
            rw [hc k, lookup_appendAt acc (replaceDots p) q hnd k]
            have hv : valsOf k ((a :: rest).map parsePair) =
                if replaceDots p = k then q :: valsOf k (rest.map parsePair)
                else valsOf k (rest.map parsePair) := by
              rw [List.map_cons, valsOf_cons, hpair]
            rw [hv]
            by_cases hk : k = replaceDots p
            · rw [if_pos hk, if_pos hk.symm, hk]
              cases List.lookup (replaceDots p) acc with
              | none => simp [combineVals]
              | some vs => simp [combineVals]
            · rw [if_neg hk, if_neg (fun hc2 => hk hc2.symm)]

/-- C9: for every accepted list of raw criteria, the built query mapping has
one entry per (rewritten) field name, no key retains a dot (each is the
name part of some criterion with every dot rewritten to two underscores),
and a key's entry holds exactly the values given for that rewritten name, in
insertion order. -/
theorem c9_criteria_accumulation (args : List Str) (flds : List (Str × List Str))
    (hok : parseFields args = Except.ok flds) :
    (flds.map Prod.fst).Nodup ∧
    (∀ k ∈ flds.map Prod.fst, '.' ∉ k ∧ k ∈ args.map (fun a => (parsePair a).1)) ∧
    (∀ k, List.lookup k flds =
      if k ∈ args.map (fun a => (parsePair a).1) then some (valsOf k (args.map parsePair))
      else none) := by
  obtain ⟨ha, hb, hc⟩ := parseFieldsGo_char args [] flds List.nodup_nil hok
  have hmem : ∀ k, k ∈ flds.map Prod.fst ↔ k ∈ args.map (fun a => (parsePair a).1) := by
    intro k
    rw [hb k]
    simp
  refine ⟨ha, ?_, ?_⟩
  · intro k hk
    have hk2 := (hmem k).mp hk
    obtain ⟨a, _, hpa⟩ := List.mem_map.mp hk2
    exact ⟨hpa ▸ parsePair_no_dot a, hk2⟩
  · intro k
    rw [hc k]
    simp only [List.lookup_nil]
    have hve : valsOf k (args.map parsePair) = [] ↔
        k ∉ args.map (fun a => (parsePair a).1) := by
      simp only [valsOf, List.map_map, List.map_eq_nil_iff, List.filter_eq_nil_iff]
      constructor
      · intro hall hkm
        obtain ⟨a, haa, hpa⟩ := List.mem_map.mp hkm
        have := hall (parsePair a) (List.mem_map_of_mem parsePair haa)
        simp at this
        exact this hpa
      · intro hnm pr hpr
        simp only [beq_iff_eq]
        intro hfst
        apply hnm
        obtain ⟨a, haa, hpa⟩ := List.mem_map.mp hpr
        exact List.mem_map.mpr ⟨a, haa, by rw [hpa, hfst]⟩
    by_cases hm : k ∈ args.map (fun a => (parsePair a).1)
    · rw [if_pos hm]
      have hne : ¬ valsOf k (args.map parsePair) = [] := fun hc2 => (hve.mp hc2) hm
      simp [combineVals, List.isEmpty_iff, hne]
    · rw [if_neg hm]
      have heq : valsOf k (args.map parsePair) = [] := hve.mpr hm
      simp [combineVals, heq]

/-- Witness for C9: three criteria, two naming the dotted field a.b. -/
theorem c9_criteria_accumulation_witness :
    (([("a__b".toList, ["1".toList, "3".toList]), (['c'], ["2".toList])] :
        List (Str × List Str)).map Prod.fst).Nodup ∧
    (∀ k ∈ ([("a__b".toList, ["1".toList, "3".toList]), (['c'], ["2".toList])] :
        List (Str × List Str)).map Prod.fst, '.' ∉ k ∧
        k ∈ ["a.b=1".toList, "c=2".toList, "a.b=3".toList].map (fun a => (parsePair a).1)) ∧
    (∀ k, List.lookup k ([("a__b".toList, ["1".toList, "3".toList]), (['c'], ["2".toList])] :
        List (Str × List Str)) =
      if k ∈ ["a.b=1".toList, "c=2".toList, "a.b=3".toList].map (fun a => (parsePair a).1)
      then some (valsOf k (["a.b=1".toList, "c=2".toList, "a.b=3".toList].map parsePair))
      else none) :=
  c9_criteria_accumulation ["a.b=1".toList, "c=2".toList, "a.b=3".toList]
    [("a__b".toList, ["1".toList, "3".toList]), (['c'], ["2".toList])] rfl

end OnyxClient

namespace OnyxClient

/-- C5 (amended): reporting an error page whose body is either not JSON or a
JSON object carrying a "messages" mapping: a detail entry with a truthy
value is surfaced as the ClickException message; a missing or falsy detail
entry makes the whole messages structure pretty-printed; an unparseable body
is reported as the raw response text. -/
theorem c5_cli_error_formats (resp : Response) :
    (resp.jsonBody = none → cli_error resp = CliOutcome.clickException resp.text) ∧
    (∀ j ms, resp.jsonBody = some j → pyGetItem j kMessages = some (Json.obj ms) →
      (∀ dv, List.lookup kDetail ms = some dv → truthy dv = true →
        cli_error resp = CliOutcome.clickException (pyStr dv)) ∧
      ((List.lookup kDetail ms = none ∨
        ∃ dv, List.lookup kDetail ms = some dv ∧ truthy dv = false) →
        cli_error resp = CliOutcome.clickException (dumps (Json.obj ms) 0))) := by
  constructor
  · intro h
    simp [cli_error, h]
  · intro j ms hj hms
    constructor
    · intro dv hdv htr
      simp [cli_error, hj, hms, hdv, htr]
    · intro hcase
      rcases hcase with hnone | ⟨dv, hdv, hfalse⟩
      · simp [cli_error, hj, hms, hnone]
      · simp [cli_error, hj, hms, hdv, hfalse]

/-- Witness for C5: the three branches at concrete error responses. -/
theorem c5_cli_error_formats_witness :
    cli_error ⟨none, "oops".toList⟩ = CliOutcome.clickException "oops".toList ∧
    cli_error ⟨some (Json.obj [(kMessages, Json.obj [(kDetail, Json.str "bad".toList)])]),
        []⟩ = CliOutcome.clickException (pyStr (Json.str "bad".toList)) ∧
    cli_error ⟨some (Json.obj [(kMessages, Json.obj [(['x'], Json.str ['y'])])]), []⟩ =
      CliOutcome.clickException (dumps (Json.obj [(['x'], Json.str ['y'])]) 0) := by
  refine ⟨(c5_cli_error_formats ⟨none, "oops".toList⟩).1 rfl, ?_, ?_⟩
  · exact ((c5_cli_error_formats
      ⟨some (Json.obj [(kMessages, Json.obj [(kDetail, Json.str "bad".toList)])]), []⟩).2
      (Json.obj [(kMessages, Json.obj [(kDetail, Json.str "bad".toList)])])
      [(kDetail, Json.str "bad".toList)] rfl rfl).1
      (Json.str "bad".toList) rfl (by decide)
  · exact ((c5_cli_error_formats
      ⟨some (Json.obj [(kMessages, Json.obj [(['x'], Json.str ['y'])])]), []⟩).2
      (Json.obj [(kMessages, Json.obj [(['x'], Json.str ['y'])])])
      [(['x'], Json.str ['y'])] rfl rfl).2 (Or.inl rfl)

/-- Counterexample to C5 as stated: a messages object with a detail entry
whose value is the empty string has a detail entry, yet the full structure
is pretty-printed instead of the (empty) detail being surfaced. -/
theorem c5_cli_error_formats_counterexample :
    cli_error ⟨some (Json.obj [(kMessages, Json.obj [(kDetail, Json.str [])])]),
        "raw".toList⟩ =
      CliOutcome.clickException (dumps (Json.obj [(kDetail, Json.str [])]) 0) ∧
    CliOutcome.clickException (dumps (Json.obj [(kDetail, Json.str [])]) 0) ≠
      CliOutcome.clickException (pyStr (Json.str [])) :=
  ⟨by decide, by decide⟩

end OnyxClient

namespace OnyxClient

/-- C6: for the record stream delivering records a=1,b=2 then a=3,b=4 across
two pages (one record per page), comma-delimited output is exactly the
header "a,b" from the first record's key order followed by rows 1,2 and 3,4
in page order, each line ending in the csv module's CRLF terminator. -/
theorem c6_csv_two_pages :
    filterCommand Formats.csv []
      [mkOkPage [Json.obj [(['a'], Json.str ['1']), (['b'], Json.str ['2'])]] false true,
       mkOkPage [Json.obj [(['a'], Json.str ['3']), (['b'], Json.str ['4'])]] true false] =
      ⟨"a,b\r\n1,2\r\n3,4\r\n".toList, none, 2⟩ := by decide

theorem csvStart_all_empty (delim : Char) (pages : List PageResult) : ∀ n : Nat,
    pages.all emptyOkPage = true →
    csvStart delim pages n = ⟨[], none, n + pages.length⟩ := by
  induction pages with
  | nil => intro n _; simp [csvStart]
  | cons p ps ih =>
    intro n h
    rw [List.all_cons, Bool.and_eq_true] at h
    obtain ⟨hp, hps⟩ := h
    simp only [emptyOkPage, Bool.and_eq_true] at hp
    obtain ⟨hok, hgd⟩ := hp
    have hds : getData p = some [] := by
      cases hgde : getData p with
      | none => rw [hgde] at hgd; simp at hgd
      | some l =>
        cases l with
        | nil => rfl
        | cons x xs => rw [hgde] at hgd; simp at hgd
    have := ih (n + 1) hps
    simp only [csvStart, hok, if_true, hds]
    simp only [List.map_nil, this]
    simp [List.length_cons]
    omega

/-- C7: a record stream yielding zero records (every page ok with an empty
data array) makes the delimited renderer write no header and no rows, for
both the csv and the tsv format. -/
theorem c7_empty_stream_no_output (pages : List PageResult)
    (h : pages.all emptyOkPage = true) :
    filterCommand Formats.csv [] pages = ⟨[], none, pages.length⟩ ∧
    filterCommand Formats.tsv [] pages = ⟨[], none, pages.length⟩ := by
  have hc := csvStart_all_empty ',' pages 0 h
  have ht := csvStart_all_empty '\t' pages 0 h
  simp only [Nat.zero_add] at hc ht
  exact ⟨hc, ht⟩

/-- Witness for C7: one ok page with an empty data array. -/
theorem c7_empty_stream_no_output_witness :
    filterCommand Formats.csv [] [mkOkPage [] false false] = ⟨[], none, 1⟩ ∧
    filterCommand Formats.tsv [] [mkOkPage [] false false] = ⟨[], none, 1⟩ :=
  c7_empty_stream_no_output [mkOkPage [] false false] (by decide)

/-- C10: when the first record pulled from the record stream is the empty
mapping (falsy), the delimited renderer emits nothing at all — no header, no
rows for any later record of the page or of later pages, and no error even
if a later page would fail — because the emit-nothing branch tests the
truthiness of the first record, not stream emptiness. -/
theorem c10_falsy_first_record (delim : Char) (p : PageResult)
    (ps : List PageResult) (n : Nat) (ds2 : List Json)
    (hok : p.ok = true) (hgd : getData p = some (Json.obj [] :: ds2)) :
    csvStart delim (p :: ps) n = ⟨[], none, n + 1⟩ := by
  simp [csvStart, hok, hgd, recordOfJson]

/-- Witness for C10: the first record is the empty mapping while a later
record on the same page and an error page follow; nothing is written and no
error is reported. -/
theorem c10_falsy_first_record_witness :
    csvStart ','
      [mkOkPage [Json.obj [], Json.obj [(['a'], Json.str ['1'])]] false true,
       ⟨false, ⟨none, "boom".toList⟩⟩] 0 = ⟨[], none, 1⟩ :=
  c10_falsy_first_record ','
    (mkOkPage [Json.obj [], Json.obj [(['a'], Json.str ['1'])]] false true)
    [⟨false, ⟨none, "boom".toList⟩⟩] 0 [Json.obj [(['a'], Json.str ['1'])]] rfl rfl

end OnyxClient

namespace OnyxClient

theorem writeRow_of_uniform (delim : Char) (fns : List Str) (rec : Record)
    (h : rec.map Prod.fst = fns) : (writeRow delim fns rec).isSome = true := by
  simp only [writeRow]
  have hall : rec.all (fun kv => fns.contains kv.1) = true := by
    rw [List.all_eq_true]
    intro kv hkv
    have hmem : kv.1 ∈ fns := h ▸ List.mem_map_of_mem Prod.fst hkv
    simpa using hmem
  rw [if_pos hall]
  rfl

theorem csvRows_ok_of_uniform (delim : Char) (fns : List Str) (rcs : List Record)
    (h : ∀ rec ∈ rcs, rec.map Prod.fst = fns) : (csvRows delim fns rcs).2 = true := by
  induction rcs with
  | nil => rfl
  | cons rec rest ih =>
    obtain ⟨row, hrow⟩ := Option.isSome_iff_exists.mp
      (writeRow_of_uniform delim fns rec (h rec (List.mem_cons_self rec rest)))
    have := ih (fun x hx => h x (List.mem_cons_of_mem rec hx))
    simp [csvRows, hrow, this]

/-- C4: in a stream whose first page is ok (and renders) and whose second
page is not ok, the filter command emits page 1's content — the JSON
fragment on the JSON path, the header and delimited rows on the csv path —
before reporting page 2's error through cli_error; the written output is
kept, the error terminates the stream, and the pages after page 2 are never
requested (exactly two requests are made, whatever follows). -/
theorem c4_partial_output_then_error (p1 p2 : PageResult) (rest : List PageResult)
    (s : Str) (delim : Char) (ds : List Json) (r : Record) (rs : List Record)
    (h1 : p1.ok = true) (h2 : p2.ok = false) :
    (processOk p1.resp = Step.emit s →
      runJson (p1 :: p2 :: rest) =
        ⟨s ++ ['\n'], some (outcomeErr (cli_error p2.resp)), 2⟩) ∧
    (getData p1 = some ds → ds.map recordOfJson = r :: rs → r ≠ [] →
      (∀ rec ∈ r :: rs, rec.map Prod.fst = r.map Prod.fst) →
      csvStart delim (p1 :: p2 :: rest) 0 =
        ⟨csvLine delim (r.map Prod.fst) ++ (csvRows delim (r.map Prod.fst) (r :: rs)).1,
          some (outcomeErr (cli_error p2.resp)), 2⟩) := by
  constructor
  · intro hemit
    simp [runJson, h1, h2, hemit]
  · intro hds hrec hrne huni
    obtain ⟨row1, hrow1⟩ := Option.isSome_iff_exists.mp
      (writeRow_of_uniform delim (r.map Prod.fst) r rfl)
    have hrowsok : (csvRows delim (r.map Prod.fst) rs).2 = true :=
      csvRows_ok_of_uniform delim (r.map Prod.fst) rs
        (fun x hx => huni x (List.mem_cons_of_mem r hx))
    have hre : r.isEmpty = false := by
      cases r with
      | nil => exact absurd rfl hrne
      | cons kv kvs => rfl
    have hrows : csvRows delim (r.map Prod.fst) (r :: rs) =
        (row1 ++ (csvRows delim (r.map Prod.fst) rs).1,
          (csvRows delim (r.map Prod.fst) rs).2) := by
      simp [csvRows, hrow1]
    simp [csvStart, h1, h2, hds, hrec, hre, hrow1, hrowsok, csvPages, hrows,
      List.append_assoc]

/-- Witness for C4: a one-record ok page followed by a failing page, on both
output paths. -/
theorem c4_partial_output_then_error_witness :
    runJson [mkOkPage [Json.obj [(['a'], Json.str ['1'])]] false true,
        ⟨false, ⟨none, "boom".toList⟩⟩] =
      ⟨(lbnl ++ (dumpsArr [Json.obj [(['a'], Json.str ['1'])]] 1 ++ [','])) ++ ['\n'],
        some (outcomeErr (cli_error ⟨none, "boom".toList⟩)), 2⟩ ∧
    csvStart ',' [mkOkPage [Json.obj [(['a'], Json.str ['1'])]] false true,
        ⟨false, ⟨none, "boom".toList⟩⟩] 0 =
      ⟨csvLine ',' [['a']] ++ (csvRows ',' [['a']] [[(['a'], Json.str ['1'])]]).1,
        some (outcomeErr (cli_error ⟨none, "boom".toList⟩)), 2⟩ := by
  constructor
  · refine (c4_partial_output_then_error
      (mkOkPage [Json.obj [(['a'], Json.str ['1'])]] false true)
      ⟨false, ⟨none, "boom".toList⟩⟩ [] _ ','
      [Json.obj [(['a'], Json.str ['1'])]] [(['a'], Json.str ['1'])] []
      rfl rfl).1 ?_
    have hstep := processOk_mk [Json.obj [(['a'], Json.str ['1'])]] false true
      (List.cons_ne_nil _ _) (by decide)
    simpa using hstep
  · exact (c4_partial_output_then_error
      (mkOkPage [Json.obj [(['a'], Json.str ['1'])]] false true)
      ⟨false, ⟨none, "boom".toList⟩⟩ [] [] ','
      [Json.obj [(['a'], Json.str ['1'])]] [(['a'], Json.str ['1'])] []
      rfl rfl).2 rfl rfl (List.cons_ne_nil _ _) (by decide)

end OnyxClient

namespace OnyxClient

theorem rowName_decorate (pre : Option Str) (field : Str) :
    rowName pre field = decoratePath (childPre pre field, pre.isSome) := by
  cases pre with
  | none => rfl
  | some p => simp [rowName, childPre, decoratePath, List.append_assoc]

theorem addFields_map_field (data : List (Str × FieldInfo)) (pre : Option Str) :
    (addFields data pre).map Row.field = (specFieldPaths data pre).map decoratePath := by
  match data with
  | [] => simp [addFields, specFieldPaths]
  | (field, FieldInfo.mk rq t dsc vs flds) :: rest =>
    have h1 := addFields_map_field flds (some (childPre pre field))
    have h2 := addFields_map_field rest pre
    by_cases ht : t = relationStr
    · simp [addFields, addFieldRows, specFieldPaths, specNodePaths, mkRow, ht,
        h1, h2, rowName_decorate]
    · simp [addFields, addFieldRows, specFieldPaths, specNodePaths, mkRow, ht,
        h1, h2, rowName_decorate]
termination_by sizeOf data
decreasing_by
  · simp only [List.cons.sizeOf_spec, Prod.mk.sizeOf_spec, FieldInfo.mk.sizeOf_spec]
    omega
  · simp only [List.cons.sizeOf_spec]
    omega

/-- C8: the field-tree renderer emits one row per node in depth-first order,
each relation node's own row before its children's rows, nested rows showing
the dimmed parent-prefixed dotted path and choice values joined with a comma
and a space; in particular for the tree of the claim the rows are sample_id,
collection, collection.country in that order with the country row showing
"UK, FR". -/
theorem c8_field_tree_renderer :
    (∀ (data : List (Str × FieldInfo)) (pre : Option Str),
      (addFields data pre).map Row.field = (specFieldPaths data pre).map decoratePath) ∧
    addFields
      [("sample_id".toList, FieldInfo.mk true "text".toList none none []),
       ("collection".toList, FieldInfo.mk false "relation".toList none none
         [("country".toList,
           FieldInfo.mk true "choice".toList none (some ["UK".toList, "FR".toList]) [])])]
      none =
      [⟨"sample_id".toList, "[bold red]required[/]".toList, "text".toList, [], []⟩,
       ⟨"collection".toList, "[bold cyan]optional[/]".toList, "relation".toList, [], []⟩,
       ⟨"[dim]collection.country[/dim]".toList, "[bold red]required[/]".toList,
         "choice".toList, [], "UK, FR".toList⟩] :=
  ⟨addFields_map_field, by decide⟩

end OnyxClient
